import Mathlib

/-!
Verification development for the arducam-apps repository.

The development shallowly embeds the two C++ translation units found in
src/apps/arducam_raw.cpp (the capture application `arducam_raw.cpp` and the
encoder `arducam_encoder.cpp` concatenated there, together with the header
`arducam_encoder.hpp` from src/unnamed/part_002):

* `resolution_map_`, `ResolutionPairs` — the static resolution table;
* `encodeArducam` / `bandLoop` — the pure band-deinterleaving transform;
* `ArducamEncoder_ctor` — the encoder constructor (resolution lookup,
  unconditional thread start, no error path);
* `EncodeBuffer` — index assignment at submission;
* `PipeState` / `Act` / `step` / `run` — a small-step interleaving semantics of
  the worker threads (`encodeThread`), the reassembler (`outputThread`) and the
  destructor protocol (`~ArducamEncoder`), scheduled by an arbitrary action
  list;
* `event_loop_activation`, `capturing_control_bursts`, `event_loop_startup` —
  the application-side control loop;
* `handleControlMessage` — the message-driven capture controller.

16-bit samples are modelled as `Nat` (they are only copied, never computed
with), buffers as `List Nat`, and machine integers as `Nat`/`Int` (the 64-bit
frame counter never wraps in any scenario considered here).
-/

/-- The raw-buffer-to-image geometry pair (`ResolutionPairs` in
arducam_encoder.hpp): raw file dimensions including padding, and the
dead-pixel-free image dimensions. -/
structure ResolutionPairs where
  fileWidth : Nat
  fileHeight : Nat
  imageWidth : Nat
  imageHeight : Nat
deriving DecidableEq

/-- The static resolution table (arducam_encoder.cpp lines 175-178):
`{"LOW", (1344, 990, 1328, 990)}, {"MEDIUM", (2032, 1080, 2024, 1080)}`,
as a lookup returning `none` on a missing key (`std::map::find` past end). -/
def resolution_map_ (key : String) : Option ResolutionPairs :=
  if key = "LOW" then some ⟨1344, 990, 1328, 990⟩
  else if key = "MEDIUM" then some ⟨2032, 1080, 2024, 1080⟩
  else none

/-- The "MEDIUM" entry of `resolution_map_`. -/
def mediumRes : ResolutionPairs := ⟨2032, 1080, 2024, 1080⟩

/-- One band of the copy loop in `ArducamEncoder::encodeArducam`
(arducam_encoder.cpp lines 241-246): `n` iterations of `copyBandColumn`,
each copying `bandWidth` contiguous samples starting at the input cursor
`pos` and then advancing the input cursor by `fileWidth` (the raw row
stride) while the output cursor advances by `bandWidth` (sequential
append). -/
def bandLoop (input : List Nat) (fileWidth bandWidth : Nat) : Nat → Nat → List Nat
  | 0, _ => []
  | n + 1, pos => ((input.drop pos).take bandWidth) ++ bandLoop input fileWidth bandWidth n (pos + fileWidth)

/-- `ArducamEncoder::encodeArducam` (arducam_encoder.cpp lines 210-249):
band width and height are `imageWidth/2` and `imageHeight/2`; the four input
band iterators start at offsets `0`, `bandWidth`, `bandHeight*fileWidth` and
`bandHeight*fileWidth + bandWidth` of the raw buffer; the four output regions
are consecutive blocks of `bandWidth*bandHeight` samples (offsets `0`,
`bandWidth*bandHeight`, `2*bandWidth*bandHeight`, `3*bandWidth*bandHeight`),
so the final buffer is the concatenation of the four band blocks.  The
returned byte length is `imageWidth*imageHeight*2` (line 248). -/
def encodeArducam (res : ResolutionPairs) (input : List Nat) : List Nat × Nat :=
  let bandWidth := res.imageWidth / 2
  let bandHeight := res.imageHeight / 2
  (bandLoop input res.fileWidth bandWidth bandHeight 0 ++
   bandLoop input res.fileWidth bandWidth bandHeight bandWidth ++
   bandLoop input res.fileWidth bandWidth bandHeight (bandHeight * res.fileWidth) ++
   bandLoop input res.fileWidth bandWidth bandHeight (bandHeight * res.fileWidth + bandWidth),
   res.imageWidth * res.imageHeight * 2)

/-- The observable result of running `ArducamEncoder`'s constructor
(arducam_encoder.cpp lines 180-190). -/
structure ArducamEncoderInit where
  current_res_ : Option ResolutionPairs
  abortEncode_ : Bool
  abortOutput_ : Bool
  index_ : Nat
  /-- the output thread and the `NUM_ENC_THREADS` encode threads were spawned -/
  threadsStarted : Bool
  /-- a fatal startup diagnostic was raised (the constructor body contains no
  such path: no `throw`, no `exit`, no `else` branch on the lookup) -/
  startupError : Bool
deriving DecidableEq

/-- `ArducamEncoder::ArducamEncoder` (arducam_encoder.cpp lines 180-190):
initializes the abort flags and the index to zero, looks the configured
resolution key up in `resolution_map_` — on a miss `current_res_` simply
stays unset — and then unconditionally starts the output thread and the
encode threads.  No error is raised on an unresolved key. -/
def ArducamEncoder_ctor (resolution_key : String) : ArducamEncoderInit :=
  { current_res_ := resolution_map_ resolution_key
    abortEncode_ := false
    abortOutput_ := false
    index_ := 0
    threadsStarted := true
    startupError := false }

/-- Running the per-frame transform on a constructed encoder:
`encodeArducam` begins by dereferencing `current_res_`
(arducam_encoder.cpp lines 212-216); with no resolved entry that is a null
dereference, modelled as `none`. -/
def encodeArducamChecked (st : ArducamEncoderInit) (input : List Nat) : Option (List Nat × Nat) :=
  st.current_res_.map (fun res => encodeArducam res input)

/-- `StreamInfo` as used by `EncodeBuffer` — opaque stream metadata. -/
structure StreamInfo where
  width : Nat
  height : Nat
  stride : Nat
deriving DecidableEq

/-- `ArducamEncoder::EncodeItem` (arducam_encoder.hpp): buffer reference
(modelled as a numeric id), stream metadata, timestamp, sequence index. -/
structure EncodeItem where
  mem : Nat
  info : StreamInfo
  timestamp_us : Int
  index : Nat
deriving DecidableEq

/-- The encoder state touched by `EncodeBuffer`: the global index counter
`index_` and the shared input queue `encode_queue_`. -/
structure EncoderSubmitState where
  index_ : Nat
  encode_queue_ : List EncodeItem
deriving DecidableEq

/-- `ArducamEncoder::EncodeBuffer` (arducam_encoder.cpp lines 202-208):
under `encode_mutex_`, builds `EncodeItem { mem, info, timestamp_us, index_++ }`,
pushes it on `encode_queue_` and notifies.  The C++ function has return type
`void`: the value communicated back to the caller is modelled as
`Option Nat`, always `none`.  `fd` and `size` are accepted and unused, as in
the source. -/
def EncodeBuffer (s : EncoderSubmitState) (_fd : Int) (_size : Nat) (mem : Nat)
    (info : StreamInfo) (timestamp_us : Int) : EncoderSubmitState × Option Nat :=
  ({ index_ := s.index_ + 1
     encode_queue_ := s.encode_queue_ ++ [⟨mem, info, timestamp_us, s.index_⟩] },
   none)

/-- Argument record for one `EncodeBuffer` call. -/
structure SubmitCall where
  fd : Int
  size : Nat
  mem : Nat
  info : StreamInfo
  timestamp_us : Int
deriving DecidableEq

/-- A sequence of `EncodeBuffer` calls applied in order. -/
def runSubmits (s : EncoderSubmitState) : List SubmitCall → EncoderSubmitState
  | [] => s
  | c :: cs => runSubmits (EncodeBuffer s c.fd c.size c.mem c.info c.timestamp_us).1 cs

/-- `NUM_ENC_THREADS` (arducam_encoder.hpp): the fixed worker pool size. -/
def NUM_ENC_THREADS : Nat := 4

/-- One encode worker (`ArducamEncoder::encodeThread`): the item it has
popped from `encode_queue_` but not yet pushed to its own output queue
(`encodeArducam` in progress), its private `output_queue_[num]`, and whether
its thread function has returned.  Items are identified by their sequence
index: the other `OutputItem` fields (buffer pointer, byte count, timestamp)
are carried along unchanged by the threads and play no part in any branch of
the control flow. -/
structure Worker where
  hand : Option Nat
  outQ : List Nat
  exited : Bool
deriving DecidableEq

/-- Joint state of the encoder's threads: producer side (`submitted` frames
handed to `EncodeBuffer`, pending in `encQ`), the worker pool, the two abort
flags, and the reassembler (`outputThread`) with its local `index` counter,
the sequence of items it forwarded to `output_ready_callback_`, and the
sequence of buffers it passed to `free`. -/
structure PipeState where
  submitted : Nat
  encQ : List Nat
  workers : List Worker
  abortEnc : Bool
  abortOut : Bool
  nextIdx : Nat
  delivered : List Nat
  freed : List Nat
  completed : Bool
deriving DecidableEq

/-- The items a worker currently holds: its output queue plus the item in
its hand. -/
def wItems (w : Worker) : List Nat := w.outQ ++ w.hand.toList

/-- All items popped from the input queue and not yet delivered. -/
def allItems (s : PipeState) : List Nat := s.workers.flatMap wItems

/-- Number of items the workers have taken off `encode_queue_`. -/
def popped (s : PipeState) : Nat := s.submitted - s.encQ.length

/-- Initial state: fresh encoder with `W` idle workers (constructor,
arducam_encoder.cpp lines 180-190). -/
def initState (W : Nat) : PipeState :=
  { submitted := 0
    encQ := []
    workers := List.replicate W ⟨none, [], false⟩
    abortEnc := false
    abortOut := false
    nextIdx := 0
    delivered := []
    freed := []
    completed := false }

/-- Atomic actions of the pipeline's threads.  Each corresponds to one
critical section of the source:

* `submit` — `EncodeBuffer` pushes the next frame with index `index_++`
  (lines 202-208); the scenario under study submits `M` frames and then
  signals the input abort, so `submit` is enabled while fewer than `M`
  frames are in and `abortEncode_` is unset;
* `abortEncode` — the destructor sets `abortEncode_ = true` (line 194),
  after the `M` submissions;
* `popFrame w` — worker `w`, holding nothing, takes `encode_queue_.front()`
  under `encode_mutex_` (lines 272-277);
* `pushFrame w` — worker `w` finishes `encodeArducam` and pushes the result
  onto its own `output_queue_[w]` under `output_mutex_` (lines 296-299);
* `exitWorker w` — worker `w` returns, which the loop does exactly when
  `abortEncode_` is set and `encode_queue_` is empty (lines 264-271);
* `abortOutput` — the destructor sets `abortOutput_ = true` (line 197),
  which it reaches only after `join`ing every worker (lines 195-196), i.e.
  only once every worker has exited;
* `deliver w` — `outputThread` finds `output_queue_[w].front().index ==
  index`, pops it, runs the callbacks, frees the buffer, `index++`
  (lines 326-344);
* `complete` — `outputThread` returns: `abortOutput_` is set and every
  output queue was empty in the same locked scan (lines 320-334). -/
inductive Act where
  | submit
  | abortEncode
  | popFrame (w : Nat)
  | pushFrame (w : Nat)
  | exitWorker (w : Nat)
  | abortOutput
  | deliver (w : Nat)
  | complete
deriving DecidableEq

/-- One interleaving step: the chosen action fires if its guard holds, and
is a no-op otherwise (the scheduler may attempt anything at any time). -/
def step (M : Nat) (s : PipeState) : Act → PipeState
  | .submit =>
      if s.submitted < M ∧ s.abortEnc = false then
        { s with encQ := s.encQ ++ [s.submitted], submitted := s.submitted + 1 }
      else s
  | .abortEncode =>
      if s.submitted = M then { s with abortEnc := true } else s
  | .popFrame w =>
      match s.workers[w]?, s.encQ with
      | some wk, x :: rest =>
          if wk.exited = false ∧ wk.hand = none then
            { s with workers := s.workers.set w { wk with hand := some x }, encQ := rest }
          else s
      | _, _ => s
  | .pushFrame w =>
      match s.workers[w]? with
      | some wk =>
          match wk.hand with
          | some x =>
              if wk.exited = false then
                { s with workers := s.workers.set w { wk with hand := none, outQ := wk.outQ ++ [x] } }
              else s
          | none => s
      | none => s
  | .exitWorker w =>
      match s.workers[w]? with
      | some wk =>
          if wk.exited = false ∧ wk.hand = none ∧ s.abortEnc = true ∧ s.encQ = [] then
            { s with workers := s.workers.set w { wk with exited := true } }
          else s
      | none => s
  | .abortOutput =>
      if s.workers.all (fun wk => wk.exited) then { s with abortOut := true } else s
  | .deliver w =>
      match s.workers[w]? with
      | some wk =>
          match wk.outQ with
          | x :: rest =>
              if s.completed = false ∧ x = s.nextIdx then
                { s with workers := s.workers.set w { wk with outQ := rest }
                         delivered := s.delivered ++ [x]
                         freed := s.freed ++ [x]
                         nextIdx := s.nextIdx + 1 }
              else s
          | [] => s
      | none => s
  | .complete =>
      if s.completed = false ∧ s.abortOut = true ∧ s.workers.all (fun wk => wk.outQ.isEmpty) then
        { s with completed := true }
      else s

/-- Run a schedule from the fresh-encoder state with `W` workers and `M`
frames to submit. -/
def run (W M : Nat) (acts : List Act) : PipeState :=
  acts.foldl (step M) (initState W)

/-- The per-activation body of `event_loop` (arducam_raw.cpp lines 58-71):
on each pass the loop waits for the gate, and only if `first` is still set
does it call `OpenCamera()` and `ConfigureVideo(...)`, clearing `first`. -/
structure EventLoopState where
  first : Bool
  openCameraCalls : Nat
  configureVideoCalls : Nat
deriving DecidableEq

/-- One gate activation observed by `event_loop`. -/
def event_loop_activation (s : EventLoopState) : EventLoopState :=
  if s.first then
    { first := false
      openCameraCalls := s.openCameraCalls + 1
      configureVideoCalls := s.configureVideoCalls + 1 }
  else s

/-- `event_loop` after processing `n` gate activations, starting from
`bool first = true;` (line 58). -/
def event_loop_run (n : Nat) : EventLoopState :=
  event_loop_activation^[n] ⟨true, 0, 0⟩

/-- `capturing_control` (arducam_raw.cpp line 34) runs
`for (int i = i; i <= 5; ++i)`: the counter is read from its own
indeterminate initial value before any write.  Given that indeterminate
value `i0`, the loop performs one burst per `i` in `[i0, 5]`. -/
def capturing_control_bursts (i0 : Int) : Nat :=
  if i0 ≤ 5 then (6 - i0).toNat else 0

/-- The shutter values `base_exposure * i` (base 5000, lines 33-40) the
control loop sends across its bursts, as a function of the indeterminate
initial counter value. -/
def capturing_control_exposures (i0 : Int) : List Int :=
  (List.range (capturing_control_bursts i0)).map (fun k => 5000 * (i0 + k))

/-- What `event_loop` does at its first gate wait (lines 59-65), as a
function of the initial values of `start` and `keep_capturing` — both
declared without initializers in `main` (lines 126-128). -/
inductive StartupOutcome where
  | exitImmediately
  | proceedWithoutSignal
  | blockUntilSignal
deriving DecidableEq

/-- First-wait behavior of `event_loop`: the wait predicate is
`start | !keep_capturing`; after the wait, `start = false` and
`if (!keep_capturing) return`. -/
def event_loop_startup (start0 keep0 : Bool) : StartupOutcome :=
  if keep0 = false then .exitImmediately
  else if start0 = true then .proceedWithoutSignal
  else .blockUntilSignal

/-- Keys of the line-oriented control protocol. -/
inductive ControlKey where
  | start
  | stop
  | close
  | exposure
  | unknown
deriving DecidableEq

/-- A parsed control message: key plus unsigned value. -/
structure ControlMessage where
  key : ControlKey
  value : Nat
deriving DecidableEq

/-- CaptureController shared state: the capture gate, the pending
exposure/shutter value, and the overall shutdown flag. -/
structure ControllerState where
  gateActive : Bool
  pendingExposure : Nat
  shutdown : Bool
deriving DecidableEq

/-- Modelled from the spec: the CaptureController message handler
(spec section 4.5).  The message-driven capture controller belongs to the
variant of this repository launched with `--message-ip`
(see src/unnamed/part_003), whose source is not under src/; only the
burst-loop variant `capturing_control` is.  Per the spec: `START` sets the
gate active; `STOP` sets it inactive; `CLOSE` sets it inactive and raises
the shutdown flag; `EXPOSURE v` updates the pending exposure only while the
gate is inactive and is rejected (logged, no state change) while it is
active; unrecognized keys are logged and dropped. -/
def handleControlMessage (s : ControllerState) (m : ControlMessage) : ControllerState :=
  match m.key with
  | .start => { s with gateActive := true }
  | .stop => { s with gateActive := false }
  | .close => { s with gateActive := false, shutdown := true }
  | .exposure => if s.gateActive then s else { s with pendingExposure := m.value }
  | .unknown => s

/-! ## Theorems -/

/-- After a sequence of `EncodeBuffer` calls, the counter equals the number
of calls made so far and the queued items carry the indices in submission
order. -/
theorem runSubmits_counter (calls : List SubmitCall) (s : EncoderSubmitState)
    (h : s.encode_queue_.map EncodeItem.index = List.range s.index_) :
    (runSubmits s calls).index_ = s.index_ + calls.length ∧
    (runSubmits s calls).encode_queue_.map EncodeItem.index
      = List.range (s.index_ + calls.length) := by
  induction calls generalizing s with
  | nil => simpa [runSubmits] using h
  | cons c cs ih =>
      have h' : ((EncodeBuffer s c.fd c.size c.mem c.info c.timestamp_us).1).encode_queue_.map
          EncodeItem.index = List.range ((EncodeBuffer s c.fd c.size c.mem c.info c.timestamp_us).1).index_ := by
        simp [EncodeBuffer, h, List.range_succ]
      have := ih _ h'
      simpa [runSubmits, EncodeBuffer, Nat.add_assoc, Nat.add_comm, Nat.add_left_comm] using this

/-- Every positive number of processed gate activations leaves `event_loop`
in the steady state: `first` cleared, camera opened and video configured
exactly once. -/
theorem event_loop_run_succ (n : Nat) :
    event_loop_run (n + 1) = ⟨false, 1, 1⟩ := by
  induction n with
  | zero => rfl
  | succ m ih =>
      have : event_loop_run (m + 1 + 1) = event_loop_activation (event_loop_run (m + 1)) :=
        Function.iterate_succ_apply' event_loop_activation (m + 1) ⟨true, 0, 0⟩
      rw [this, ih]
      rfl

/-- C4: the claim says an unresolved resolution label aborts the pipeline
with a fatal diagnostic before any capture or worker thread starts.  The
constructor does no such thing: for the unrecognized label "HIGH" it
completes normally (`startupError = false`), starts all threads anyway, and
leaves `current_res_` unset, so the failure only surfaces at the first
per-frame transform, where `encodeArducam` dereferences the null
`current_res_` (modelled as `none`).  The "MEDIUM" conjunct shows the same
constructor resolves a known label, so the miss is not an artifact of the
model. -/
theorem C4_unresolved_label_is_deferred_to_frame_time :
    (ArducamEncoder_ctor "HIGH").startupError = false ∧
    (ArducamEncoder_ctor "HIGH").threadsStarted = true ∧
    (ArducamEncoder_ctor "HIGH").current_res_ = none ∧
    encodeArducamChecked (ArducamEncoder_ctor "HIGH") [] = none ∧
    (ArducamEncoder_ctor "MEDIUM").current_res_ = some mediumRes := by
  refine ⟨rfl, rfl, ?_, ?_, ?_⟩ <;> decide

/-- C5: an EXPOSURE message handled while the gate is active leaves the
controller state — in particular the pending exposure value — unchanged;
handled while the gate is inactive it updates the pending value to the
message's value, exactly once, touching nothing else; and the pending
exposure value never changes as the result of any message handled while the
gate is active. -/
theorem C5_exposure_gating (s : ControllerState) (v : Nat) :
    (s.gateActive = true → handleControlMessage s ⟨.exposure, v⟩ = s) ∧
    (s.gateActive = false →
      handleControlMessage s ⟨.exposure, v⟩ = { s with pendingExposure := v }) ∧
    (∀ m : ControlMessage,
      (handleControlMessage s m).pendingExposure ≠ s.pendingExposure → s.gateActive = false) := by
  refine ⟨?_, ?_, ?_⟩
  · intro h
    simp [handleControlMessage, h]
  · intro h
    simp [handleControlMessage, h]
  · intro m hm
    cases hk : m.key <;> simp [handleControlMessage, hk] at hm ⊢
    by_contra hg
    simp [Bool.not_eq_false] at hg
    simp [hg] at hm

/-- Witness for C5 at concrete states: with the gate active the pending
exposure 3 survives an `EXPOSURE 7` message unchanged; with the gate
inactive the same message sets it to 7. -/
theorem C5_exposure_gating_witness :
    handleControlMessage ⟨true, 3, false⟩ ⟨.exposure, 7⟩ = ⟨true, 3, false⟩ ∧
    handleControlMessage ⟨false, 3, false⟩ ⟨.exposure, 7⟩ = ⟨false, 7, false⟩ :=
  ⟨(C5_exposure_gating ⟨true, 3, false⟩ 7).1 rfl,
   (C5_exposure_gating ⟨false, 3, false⟩ 7).2.1 rfl⟩

/-- C7 counterexample: the claim says the sequence index is returned to the
caller, but `EncodeBuffer` is `void` — the call communicates no value back.
At a concrete first call (whose assigned index is 0) the returned value is
`none`, not `some 0`. -/
theorem C7_submit_returns_no_index :
    (EncodeBuffer ⟨0, []⟩ 3 4096 17 ⟨2032, 1080, 4064⟩ 1000).2 = none ∧
    (EncodeBuffer ⟨0, []⟩ 3 4096 17 ⟨2032, 1080, 4064⟩ 1000).2 ≠ some 0 := by
  refine ⟨rfl, ?_⟩
  decide

/-- C7 amended: the sequence index is one global counter — for every
submission history the i-th `EncodeBuffer` call assigns index i (starting at
0) to the item it queues, the counter is incremented exactly once per call,
and indices are never reused; the index is assigned synchronously at
submission time and stored in the queued item, but not returned to the
caller (the function is `void`). -/
theorem C7_amended_index_counter (calls : List SubmitCall) :
    (runSubmits ⟨0, []⟩ calls).index_ = calls.length ∧
    (runSubmits ⟨0, []⟩ calls).encode_queue_.map EncodeItem.index
      = List.range calls.length ∧
    ((runSubmits ⟨0, []⟩ calls).encode_queue_.map EncodeItem.index).Nodup := by
  have h := runSubmits_counter calls ⟨0, []⟩ (by simp)
  refine ⟨by simpa using h.1, by simpa using h.2, ?_⟩
  have h2 : (runSubmits ⟨0, []⟩ calls).encode_queue_.map EncodeItem.index
      = List.range calls.length := by simpa using h.2
  rw [h2]
  exact List.nodup_range _

/-- C8: across any number `n` of start/stop cycles in one session,
`event_loop` calls `OpenCamera` and `ConfigureVideo` exactly `min n 1` times
— i.e. on the first activation only and never thereafter, so repeated start
signals cause no duplicate camera-open or configure call. -/
theorem C8_open_configure_once (n : Nat) :
    (event_loop_run n).openCameraCalls = min n 1 ∧
    (event_loop_run n).configureVideoCalls = min n 1 ∧
    (event_loop_run n).openCameraCalls ≤ 1 ∧
    (event_loop_run n).configureVideoCalls ≤ 1 := by
  cases n with
  | zero => exact ⟨rfl, rfl, by decide, by decide⟩
  | succ m =>
      rw [event_loop_run_succ m]
      refine ⟨?_, ?_, by decide, by decide⟩ <;> simp [Nat.min_def]

/-- C9: the capture-control loop's startup state is read before it is ever
written.  The burst counter of `capturing_control` is initialized from its
own indeterminate value `i0`, and the observable behavior depends on it:
`i0 = 1` yields five bursts with exposures 5000..25000, `i0 = 6` yields
none.  Likewise the gate booleans of `main` are declared without
initializers, and `event_loop`'s first wait depends on their indeterminate
values: `keep_capturing = false` exits at once, `start = true` proceeds
without any signal, and only `start = false, keep_capturing = true` blocks
as intended — so the program's startup behavior is undefined until the
first explicit write. -/
theorem C9_uninitialized_startup_state :
    capturing_control_bursts 1 = 5 ∧
    capturing_control_bursts 6 = 0 ∧
    capturing_control_bursts 1 ≠ capturing_control_bursts 6 ∧
    capturing_control_exposures 1 = [5000, 10000, 15000, 20000, 25000] ∧
    event_loop_startup true false = .exitImmediately ∧
    event_loop_startup true true = .proceedWithoutSignal ∧
    event_loop_startup false true = .blockUntilSignal ∧
    event_loop_startup true true ≠ event_loop_startup false true := by
  refine ⟨by decide, by decide, by decide, by decide, rfl, rfl, rfl, by decide⟩

/-- Length of one band block: `n` rows of `bandWidth` samples, provided
every row lies inside the input buffer. -/
theorem bandLoop_length (input : List Nat) (fw bw : Nat) :
    ∀ (n pos : Nat), (∀ k, k < n → pos + k * fw + bw ≤ input.length) →
      (bandLoop input fw bw n pos).length = n * bw := by
  intro n
  induction n with
  | zero => intro pos _; simp [bandLoop]
  | succ m ih =>
      intro pos h
      have h0 : pos + bw ≤ input.length := by
        have := h 0 (Nat.succ_pos m)
        omega
      have hrec : ∀ k, k < m → (pos + fw) + k * fw + bw ≤ input.length := by
        intro k hk
        have := h (k + 1) (by omega)
        rw [Nat.succ_mul] at this
        omega
      have htake : ((input.drop pos).take bw).length = bw := by
        rw [List.length_take, List.length_drop]
        omega
      rw [bandLoop, List.length_append, htake, ih (pos + fw) hrec, Nat.succ_mul]
      omega

/-- Element formula for one band block: sample `(i, j)` of the block is the
input sample at `pos + i * fileWidth + j` — the interleaved band read with
the raw row stride. -/
theorem bandLoop_getElem (input : List Nat) (fw bw : Nat) :
    ∀ (n pos i j : Nat), i < n → j < bw → pos + i * fw + bw ≤ input.length →
      (bandLoop input fw bw n pos)[i * bw + j]? = input[pos + i * fw + j]? := by
  intro n
  induction n with
  | zero => intro pos i j hi _ _; exact absurd hi (Nat.not_lt_zero i)
  | succ m ih =>
      intro pos i j hi hj hrow
      cases i with
      | zero =>
          have hlen : pos + bw ≤ input.length := by simpa using hrow
          have htake : ((input.drop pos).take bw).length = bw := by
            rw [List.length_take, List.length_drop]
            omega
          rw [bandLoop]
          rw [List.getElem?_append_left (by omega : 0 * bw + j < ((input.drop pos).take bw).length)]
          rw [List.getElem?_take, if_pos (by omega : 0 * bw + j < bw), List.getElem?_drop]
          congr 1
          omega
      | succ k =>
          have hk : k < m := by omega
          have hrow' : (pos + fw) + k * fw + bw ≤ input.length := by
            rw [Nat.succ_mul] at hrow
            omega
          have htake : ((input.drop pos).take bw).length = bw := by
            have : pos + bw ≤ input.length := by
              have : (pos + fw) + k * fw + bw ≤ input.length := hrow'
              omega
            rw [List.length_take, List.length_drop]
            omega
          rw [bandLoop]
          rw [List.getElem?_append_right (by rw [htake, Nat.succ_mul]; omega :
            ((input.drop pos).take bw).length ≤ (k + 1) * bw + j)]
          rw [htake]
          have hidx : (k + 1) * bw + j - bw = k * bw + j := by
            rw [Nat.succ_mul]
            omega
          rw [hidx, ih (pos + fw) k j hk hj hrow']
          congr 1
          rw [Nat.succ_mul]
          omega

/-- C2: for the "MEDIUM" entry (2032x1080 raw, 2024x1080 image) the
transform's reported output length is exactly `2024*1080*2` bytes (the
output holds `2024*1080` 16-bit samples), and for every input buffer of the
raw size each of the four output quadrant blocks — consecutive blocks of
`1012*540` samples, `bandWidth = 2024/2`, `bandHeight = 1080/2` — equals
the corresponding interleaved band of the input read with raw row stride
2032 from the origins `0`, `1012`, `540*2032 = 1097280` and
`540*2032 + 1012 = 1098292`. -/
theorem C2_geometry_correctness (input : List Nat) (h : input.length = 2032 * 1080) :
    resolution_map_ "MEDIUM" = some mediumRes ∧
    (encodeArducam mediumRes input).2 = 2024 * 1080 * 2 ∧
    (encodeArducam mediumRes input).1.length = 2024 * 1080 ∧
    ∀ i j, i < 540 → j < 1012 →
      ((encodeArducam mediumRes input).1[i * 1012 + j]? = input[i * 2032 + j]? ∧
       (encodeArducam mediumRes input).1[546480 + (i * 1012 + j)]? = input[1012 + (i * 2032 + j)]? ∧
       (encodeArducam mediumRes input).1[1092960 + (i * 1012 + j)]? = input[1097280 + (i * 2032 + j)]? ∧
       (encodeArducam mediumRes input).1[1639440 + (i * 1012 + j)]? = input[1098292 + (i * 2032 + j)]?) := by
  have e1 : (encodeArducam mediumRes input).1
      = bandLoop input 2032 1012 540 0 ++
        (bandLoop input 2032 1012 540 1012 ++
         (bandLoop input 2032 1012 540 1097280 ++ bandLoop input 2032 1012 540 1098292)) := by
    norm_num [encodeArducam, mediumRes, List.append_assoc]
  have cond1 : ∀ k, k < 540 → 0 + k * 2032 + 1012 ≤ input.length := by
    intro k hk; rw [h]; omega
  have cond2 : ∀ k, k < 540 → 1012 + k * 2032 + 1012 ≤ input.length := by
    intro k hk; rw [h]; omega
  have cond3 : ∀ k, k < 540 → 1097280 + k * 2032 + 1012 ≤ input.length := by
    intro k hk; rw [h]; omega
  have cond4 : ∀ k, k < 540 → 1098292 + k * 2032 + 1012 ≤ input.length := by
    intro k hk; rw [h]; omega
  have lA : (bandLoop input 2032 1012 540 0).length = 546480 := by
    rw [bandLoop_length input 2032 1012 540 0 cond1]
  have lB : (bandLoop input 2032 1012 540 1012).length = 546480 := by
    rw [bandLoop_length input 2032 1012 540 1012 cond2]
  have lC : (bandLoop input 2032 1012 540 1097280).length = 546480 := by
    rw [bandLoop_length input 2032 1012 540 1097280 cond3]
  have lD : (bandLoop input 2032 1012 540 1098292).length = 546480 := by
    rw [bandLoop_length input 2032 1012 540 1098292 cond4]
  refine ⟨rfl, by norm_num [encodeArducam, mediumRes], ?_, ?_⟩
  · rw [e1]
    simp [List.length_append, lA, lB, lC, lD]
  · intro i j hi hj
    refine ⟨?_, ?_, ?_, ?_⟩
    · rw [e1, List.getElem?_append_left (by rw [lA]; omega)]
      have := bandLoop_getElem input 2032 1012 540 0 i j hi hj (by rw [h]; omega)
      rw [this]
      congr 1
      omega
    · rw [e1, List.getElem?_append_right (by rw [lA]; omega), lA]
      have hsub : 546480 + (i * 1012 + j) - 546480 = i * 1012 + j := by omega
      rw [hsub, List.getElem?_append_left (by rw [lB]; omega)]
      have hidx : 1012 + (i * 2032 + j) = 1012 + i * 2032 + j := by omega
      rw [hidx]
      exact bandLoop_getElem input 2032 1012 540 1012 i j hi hj (by rw [h]; omega)
    · rw [e1, List.getElem?_append_right (by rw [lA]; omega), lA]
      have hsub : 1092960 + (i * 1012 + j) - 546480 = 546480 + (i * 1012 + j) := by omega
      rw [hsub, List.getElem?_append_right (by rw [lB]; omega), lB]
      have hsub2 : 546480 + (i * 1012 + j) - 546480 = i * 1012 + j := by omega
      rw [hsub2, List.getElem?_append_left (by rw [lC]; omega)]
      have hidx : 1097280 + (i * 2032 + j) = 1097280 + i * 2032 + j := by omega
      rw [hidx]
      exact bandLoop_getElem input 2032 1012 540 1097280 i j hi hj (by rw [h]; omega)
    · rw [e1, List.getElem?_append_right (by rw [lA]; omega), lA]
      have hsub : 1639440 + (i * 1012 + j) - 546480 = 1092960 + (i * 1012 + j) := by omega
      rw [hsub, List.getElem?_append_right (by rw [lB]; omega), lB]
      have hsub2 : 1092960 + (i * 1012 + j) - 546480 = 546480 + (i * 1012 + j) := by omega
      rw [hsub2, List.getElem?_append_right (by rw [lC]; omega), lC]
      have hsub3 : 546480 + (i * 1012 + j) - 546480 = i * 1012 + j := by omega
      rw [hsub3]
      have hidx : 1098292 + (i * 2032 + j) = 1098292 + i * 2032 + j := by omega
      rw [hidx]
      exact bandLoop_getElem input 2032 1012 540 1098292 i j hi hj (by rw [h]; omega)

/-- Witness for C2 at a concrete raw buffer: `input = List.range (2032*1080)`
satisfies the size hypothesis, and e.g. output sample `(i, j) = (1, 2)` of
quadrant 2 is the input sample at origin `1012` plus one raw row stride plus
2. -/
theorem C2_geometry_correctness_witness :
    (List.range (2032 * 1080)).length = 2032 * 1080 ∧
    (encodeArducam mediumRes (List.range (2032 * 1080))).2 = 2024 * 1080 * 2 ∧
    (encodeArducam mediumRes (List.range (2032 * 1080))).1[546480 + (1 * 1012 + 2)]?
      = (List.range (2032 * 1080))[1012 + (1 * 2032 + 2)]? := by
  refine ⟨List.length_range _, ?_, ?_⟩
  · exact (C2_geometry_correctness (List.range (2032 * 1080)) (List.length_range _)).2.1
  · exact ((C2_geometry_correctness (List.range (2032 * 1080))
      (List.length_range _)).2.2.2 1 2 (by omega) (by omega)).2.1

/-- Replacing the `n`-th worker changes the pooled item count by exactly the
difference between the old and the new worker's items. -/
theorem count_flatMap_set (f : Worker → List Nat) (l : List Worker) :
    ∀ (n : Nat) (wk w' : Worker), l[n]? = some wk → ∀ i,
      ((l.set n w').flatMap f).count i + (f wk).count i
        = (l.flatMap f).count i + (f w').count i := by
  induction l with
  | nil => intro n wk w' hmem i; simp at hmem
  | cons a t ih =>
      intro n wk w' hmem i
      cases n with
      | zero =>
          simp only [List.getElem?_cons_zero, Option.some.injEq] at hmem
          subst hmem
          simp only [List.set_cons_zero, List.flatMap_cons, List.count_append]
          omega
      | succ m =>
          simp only [List.getElem?_cons_succ] at hmem
          rw [List.set_cons_succ]
          simp only [List.flatMap_cons, List.count_append]
          have := ih m wk w' hmem i
          omega

/-- A successful indexed lookup is a member. -/
theorem mem_of_lookup {l : List Worker} {n : Nat} {wk : Worker}
    (h : l[n]? = some wk) : wk ∈ l := by
  obtain ⟨hlt, rfl⟩ := List.getElem?_eq_some_iff.mp h
  exact List.getElem_mem hlt

/-- The inductive invariant of the pipeline's interleaving semantics, for a
session with `W` workers and `M` frames:

* the input queue always holds a contiguous ascending run of indices ending
  at `submitted` (`EncodeBuffer` assigns `index_++` and workers pop the
  front);
* the input abort is signaled only after all `M` frames are in;
* an exited worker saw the input abort with an empty input queue and holds
  no item in its hand;
* the output abort is observed only after every worker has exited (the
  destructor joins every worker first);
* the reassembler has delivered exactly the indices `0..nextIdx-1` in
  order, and every index popped from the input queue and not yet delivered
  sits in exactly one worker's hand or output queue;
* completion implies the output abort was set and every output queue was
  empty in the same scan. -/
structure PipeInv (W M : Nat) (s : PipeState) : Prop where
  hW : s.workers.length = W
  hsub : s.submitted ≤ M
  hlen : s.encQ.length ≤ s.submitted
  henc : s.encQ = List.range' (s.submitted - s.encQ.length) s.encQ.length
  habort : s.abortEnc = true → s.submitted = M
  hex : ∀ w ∈ s.workers, w.exited = true → s.abortEnc = true ∧ s.encQ = [] ∧ w.hand = none
  hout : s.abortOut = true → ∀ w ∈ s.workers, w.exited = true
  hdel : s.delivered = List.range s.nextIdx
  hnext : s.nextIdx ≤ popped s
  hitems : ∀ i, (allItems s).count i = if s.nextIdx ≤ i ∧ i < popped s then 1 else 0
  hcomp : s.completed = true → s.abortOut = true ∧ ∀ w ∈ s.workers, w.outQ = []

/-- The invariant holds in the fresh-encoder state. -/
theorem PipeInv_init (W M : Nat) : PipeInv W M (initState W) := by
  have hflat : allItems (initState W) = [] := by
    rw [allItems, List.flatMap_eq_nil_iff]
    intro x hx
    rw [initState] at hx
    simp only [List.mem_replicate] at hx
    rw [hx.2]
    rfl
  refine ⟨?_, ?_, ?_, ?_, ?_, ?_, ?_, ?_, ?_, ?_, ?_⟩
  · simp [initState]
  · exact Nat.zero_le M
  · exact Nat.le_refl 0
  · rfl
  · intro h; simp [initState] at h
  · intro w hw hex_w
    rw [initState] at hw
    simp only [List.mem_replicate] at hw
    rw [hw.2] at hex_w
    simp at hex_w
  · intro h; simp [initState] at h
  · rfl
  · exact Nat.le_refl 0
  · intro i
    rw [hflat]
    simp [popped, initState]
  · intro h; simp [initState] at h

/-- `submit` preserves the pipeline invariant. -/
theorem PipeInv_submit (W M : Nat) (s : PipeState) (inv : PipeInv W M s) :
    PipeInv W M (step M s .submit) := by
  by_cases hc : s.submitted < M ∧ s.abortEnc = false
  · obtain ⟨hc1, hc2⟩ := hc
    simp only [step, if_pos (And.intro hc1 hc2)]
    have hl := inv.hlen
    refine ⟨inv.hW, show s.submitted + 1 ≤ M by omega, ?_, ?_, ?_, ?_, fun h => inv.hout h,
      inv.hdel, ?_, ?_, ?_⟩
    · simp only [List.length_append, List.length_singleton]
      omega
    · simp only [List.length_append, List.length_singleton]
      have h1 : s.submitted + 1 - (s.encQ.length + 1) = s.submitted - s.encQ.length := by omega
      rw [h1, List.range'_concat]
      rw [← inv.henc]
      have h2 : s.submitted - s.encQ.length + 1 * s.encQ.length = s.submitted := by omega
      rw [h2]
    · intro h
      rw [hc2] at h
      cases h
    · intro w hw hx
      have := (inv.hex w hw hx).1
      rw [hc2] at this
      cases this
    · have h0 := inv.hnext
      simp only [popped, List.length_append, List.length_singleton] at h0 ⊢
      omega
    · intro i
      have h0 := inv.hitems i
      simp only [allItems, popped, List.length_append, List.length_singleton] at h0 ⊢
      have h1 : s.submitted + 1 - (s.encQ.length + 1) = s.submitted - s.encQ.length := by omega
      rw [h1]
      exact h0
    · intro h
      exact inv.hcomp h
  · simp only [step, if_neg hc]
    exact inv

/-- `abortEncode` preserves the pipeline invariant. -/
theorem PipeInv_abortEncode (W M : Nat) (s : PipeState) (inv : PipeInv W M s) :
    PipeInv W M (step M s .abortEncode) := by
  by_cases hc : s.submitted = M
  · simp only [step, if_pos hc]
    refine ⟨inv.hW, inv.hsub, inv.hlen, inv.henc, fun _ => hc, ?_, fun h => inv.hout h,
      inv.hdel, inv.hnext, inv.hitems, fun h => inv.hcomp h⟩
    intro w hw hx
    exact ⟨rfl, (inv.hex w hw hx).2.1, (inv.hex w hw hx).2.2⟩
  · simp only [step, if_neg hc]
    exact inv

/-- `abortOutput` preserves the pipeline invariant. -/
theorem PipeInv_abortOutput (W M : Nat) (s : PipeState) (inv : PipeInv W M s) :
    PipeInv W M (step M s .abortOutput) := by
  by_cases hc : s.workers.all (fun wk => wk.exited) = true
  · simp only [step, if_pos hc]
    refine ⟨inv.hW, inv.hsub, inv.hlen, inv.henc, inv.habort,
      fun w hw hx => inv.hex w hw hx, ?_, inv.hdel, inv.hnext, inv.hitems, ?_⟩
    · intro _ w hw
      exact List.all_eq_true.mp hc w hw
    · intro h
      exact ⟨rfl, (inv.hcomp h).2⟩
  · simp only [step, if_neg hc]
    exact inv

/-- `complete` preserves the pipeline invariant. -/
theorem PipeInv_complete (W M : Nat) (s : PipeState) (inv : PipeInv W M s) :
    PipeInv W M (step M s .complete) := by
  by_cases hc : s.completed = false ∧ s.abortOut = true ∧
      s.workers.all (fun wk => wk.outQ.isEmpty) = true
  · simp only [step, if_pos hc]
    refine ⟨inv.hW, inv.hsub, inv.hlen, inv.henc, inv.habort,
      fun w hw hx => inv.hex w hw hx, fun h => inv.hout h, inv.hdel, inv.hnext, inv.hitems, ?_⟩
    intro _
    refine ⟨hc.2.1, ?_⟩
    intro w hw
    exact List.isEmpty_iff.mp (List.all_eq_true.mp hc.2.2 w hw)
  · simp only [step, if_neg hc]
    exact inv

/-- `popFrame` preserves the pipeline invariant. -/
theorem PipeInv_popFrame (W M : Nat) (s : PipeState) (w : Nat) (inv : PipeInv W M s) :
    PipeInv W M (step M s (.popFrame w)) := by
  cases hw : s.workers[w]? with
  | none =>
      simp only [step, hw]
      exact inv
  | some wk =>
      cases hq : s.encQ with
      | nil =>
          simp only [step, hw, hq]
          exact inv
      | cons x rest =>
          by_cases hcc : wk.exited = false ∧ wk.hand = none
          · obtain ⟨hex_f, hhand⟩ := hcc
            simp only [step, hw, hq, if_pos (And.intro hex_f hhand)]
            have hmem : wk ∈ s.workers := mem_of_lookup hw
            have hl := inv.hlen
            rw [hq] at hl
            simp only [List.length_cons] at hl
            have he := inv.henc
            rw [hq] at he
            simp only [List.length_cons] at he
            rw [List.range'_succ] at he
            injection he with hxval hrest
            refine ⟨?_, inv.hsub, ?_, ?_, inv.habort, ?_, ?_, inv.hdel, ?_, ?_, ?_⟩
            · simp only [List.length_set]
              exact inv.hW
            · show rest.length ≤ s.submitted
              omega
            · show rest = List.range' (s.submitted - rest.length) rest.length
              have harg : s.submitted - rest.length = s.submitted - (rest.length + 1) + 1 := by
                omega
              rw [harg, ← hrest]
            · intro w' hw' hx'
              rcases List.mem_or_eq_of_mem_set hw' with hmem' | heq
              · have h3 := (inv.hex w' hmem' hx').2.1
                rw [hq] at h3
                exact absurd h3 (List.cons_ne_nil x rest)
              · rw [heq] at hx'
                have hx2 : wk.exited = true := hx'
                rw [hex_f] at hx2
                simp at hx2
            · intro h
              have hcon := inv.hout h wk hmem
              rw [hex_f] at hcon
              simp at hcon
            · have h0 := inv.hnext
              simp only [popped] at h0 ⊢
              rw [hq] at h0
              simp only [List.length_cons] at h0
              omega
            · intro i
              have hkey := count_flatMap_set wItems s.workers w wk { wk with hand := some x } hw i
              have hB := inv.hitems i
              have hnx := inv.hnext
              simp only [allItems, popped, wItems, hhand, Option.toList, List.append_nil,
                List.count_append, List.count_singleton, beq_iff_eq] at hkey hB hnx ⊢
              simp only [hq, List.length_cons] at hB hnx
              split_ifs at hkey hB ⊢ <;> omega
            · intro h
              have hcon := inv.hout (inv.hcomp h).1 wk hmem
              rw [hex_f] at hcon
              simp at hcon
          · simp only [step, hw, hq, if_neg hcc]
            exact inv

/-- `pushFrame` preserves the pipeline invariant. -/
theorem PipeInv_pushFrame (W M : Nat) (s : PipeState) (w : Nat) (inv : PipeInv W M s) :
    PipeInv W M (step M s (.pushFrame w)) := by
  cases hw : s.workers[w]? with
  | none =>
      simp only [step, hw]
      exact inv
  | some wk =>
      cases hh : wk.hand with
      | none =>
          simp only [step, hw, hh]
          exact inv
      | some x =>
          by_cases hcc : wk.exited = false
          · simp only [step, hw, hh, if_pos hcc]
            have hmem : wk ∈ s.workers := mem_of_lookup hw
            refine ⟨?_, inv.hsub, inv.hlen, inv.henc, inv.habort, ?_, ?_, inv.hdel,
              inv.hnext, ?_, ?_⟩
            · simp only [List.length_set]
              exact inv.hW
            · intro w' hw' hx'
              rcases List.mem_or_eq_of_mem_set hw' with hmem' | heq
              · exact inv.hex w' hmem' hx'
              · rw [heq] at hx'
                have hx2 : wk.exited = true := hx'
                rw [hcc] at hx2
                simp at hx2
            · intro h
              have hcon := inv.hout h wk hmem
              rw [hcc] at hcon
              simp at hcon
            · intro i
              have hkey := count_flatMap_set wItems s.workers w wk
                { wk with hand := none, outQ := wk.outQ ++ [x] } hw i
              have hB := inv.hitems i
              simp only [allItems, popped, wItems, hh, Option.toList, List.append_nil,
                List.count_append, List.count_singleton, beq_iff_eq] at hkey hB ⊢
              split_ifs at hkey hB ⊢ <;> omega
            · intro h
              have hcon := inv.hout (inv.hcomp h).1 wk hmem
              rw [hcc] at hcon
              simp at hcon
          · simp only [step, hw, hh, if_neg hcc]
            exact inv

/-- `exitWorker` preserves the pipeline invariant. -/
theorem PipeInv_exitWorker (W M : Nat) (s : PipeState) (w : Nat) (inv : PipeInv W M s) :
    PipeInv W M (step M s (.exitWorker w)) := by
  cases hw : s.workers[w]? with
  | none =>
      simp only [step, hw]
      exact inv
  | some wk =>
      by_cases hcc : wk.exited = false ∧ wk.hand = none ∧ s.abortEnc = true ∧ s.encQ = []
      · obtain ⟨hc1, hc2, hc3, hc4⟩ := hcc
        simp only [step, hw, if_pos (And.intro hc1 (And.intro hc2 (And.intro hc3 hc4)))]
        have hmem : wk ∈ s.workers := mem_of_lookup hw
        refine ⟨?_, inv.hsub, inv.hlen, inv.henc, inv.habort, ?_, ?_, inv.hdel,
          inv.hnext, ?_, ?_⟩
        · simp only [List.length_set]
          exact inv.hW
        · intro w' hw' hx'
          rcases List.mem_or_eq_of_mem_set hw' with hmem' | heq
          · exact inv.hex w' hmem' hx'
          · rw [heq]
            exact ⟨hc3, hc4, hc2⟩
        · intro h
          have hcon := inv.hout h wk hmem
          rw [hc1] at hcon
          simp at hcon
        · intro i
          have hkey := count_flatMap_set wItems s.workers w wk { wk with exited := true } hw i
          have hB := inv.hitems i
          simp only [allItems, popped, wItems, hc2, Option.toList, List.append_nil,
            List.count_append, List.count_singleton, beq_iff_eq] at hkey hB ⊢
          split_ifs at hkey hB ⊢ <;> omega
        · intro h
          have hcon := inv.hout (inv.hcomp h).1 wk hmem
          rw [hc1] at hcon
          simp at hcon
      · simp only [step, hw, if_neg hcc]
        exact inv

/-- `deliver` preserves the pipeline invariant. -/
theorem PipeInv_deliver (W M : Nat) (s : PipeState) (w : Nat) (inv : PipeInv W M s) :
    PipeInv W M (step M s (.deliver w)) := by
  cases hw : s.workers[w]? with
  | none =>
      simp only [step, hw]
      exact inv
  | some wk =>
      cases ho : wk.outQ with
      | nil =>
          simp only [step, hw, ho]
          exact inv
      | cons x rest =>
          by_cases hcc : s.completed = false ∧ x = s.nextIdx
          · obtain ⟨hc1, hc2⟩ := hcc
            simp only [step, hw, ho, if_pos (And.intro hc1 hc2)]
            have hmem : wk ∈ s.workers := mem_of_lookup hw
            have hxin : x ∈ allItems s := by
              rw [allItems, List.mem_flatMap]
              refine ⟨wk, hmem, ?_⟩
              rw [wItems, ho]
              exact List.mem_append_left _ (List.mem_cons_self x rest)
            have hpos : 0 < (allItems s).count x := List.count_pos_iff.mpr hxin
            rw [inv.hitems x] at hpos
            have hcond : s.nextIdx ≤ x ∧ x < popped s := by
              by_contra hcontra
              rw [if_neg hcontra] at hpos
              exact absurd hpos (by omega)
            rw [popped] at hcond
            refine ⟨?_, inv.hsub, inv.hlen, inv.henc, inv.habort, ?_, ?_, ?_, ?_, ?_, ?_⟩
            · simp only [List.length_set]
              exact inv.hW
            · intro w' hw' hx'
              rcases List.mem_or_eq_of_mem_set hw' with hmem' | heq
              · exact inv.hex w' hmem' hx'
              · rw [heq] at hx'
                have hx2 : wk.exited = true := hx'
                have := inv.hex wk hmem hx2
                rw [heq]
                exact ⟨this.1, this.2.1, this.2.2⟩
            · intro h w' hw'
              rcases List.mem_or_eq_of_mem_set hw' with hmem' | heq
              · exact inv.hout h w' hmem'
              · rw [heq]
                exact inv.hout h wk hmem
            · show s.delivered ++ [x] = List.range (s.nextIdx + 1)
              rw [inv.hdel, hc2, List.range_succ]
            · have h0 := inv.hnext
              simp only [popped] at h0 ⊢
              omega
            · intro i
              have hkey := count_flatMap_set wItems s.workers w wk { wk with outQ := rest } hw i
              have hB := inv.hitems i
              simp only [allItems, popped, wItems, ho, List.cons_append, List.count_cons,
                List.count_append, beq_iff_eq] at hkey hB ⊢
              split_ifs at hkey hB ⊢ <;> omega
            · intro h
              rw [hc1] at h
              cases h
          · simp only [step, hw, ho, if_neg hcc]
            exact inv

/-- Every action preserves the pipeline invariant. -/
theorem PipeInv_step (W M : Nat) (s : PipeState) (a : Act) (inv : PipeInv W M s) :
    PipeInv W M (step M s a) := by
  cases a with
  | submit => exact PipeInv_submit W M s inv
  | abortEncode => exact PipeInv_abortEncode W M s inv
  | popFrame w => exact PipeInv_popFrame W M s w inv
  | pushFrame w => exact PipeInv_pushFrame W M s w inv
  | exitWorker w => exact PipeInv_exitWorker W M s w inv
  | abortOutput => exact PipeInv_abortOutput W M s inv
  | deliver w => exact PipeInv_deliver W M s w inv
  | complete => exact PipeInv_complete W M s inv

/-- The invariant holds along any schedule. -/
theorem PipeInv_foldl (W M : Nat) :
    ∀ (acts : List Act) (s : PipeState), PipeInv W M s →
      PipeInv W M (acts.foldl (step M) s) := by
  intro acts
  induction acts with
  | nil => intro s inv; exact inv
  | cons a as ih =>
      intro s inv
      exact ih (step M s a) (PipeInv_step W M s a inv)

/-- The invariant holds in every reachable state. -/
theorem PipeInv_run (W M : Nat) (acts : List Act) : PipeInv W M (run W M acts) :=
  PipeInv_foldl W M acts (initState W) (PipeInv_init W M)

/-- One step keeps the freed list equal to the delivered list: the
reassembler frees exactly the buffers it delivers, immediately after the
sink callback (arducam_encoder.cpp lines 342-343). -/
theorem step_freed (M : Nat) (s : PipeState) (a : Act) (h : s.freed = s.delivered) :
    (step M s a).freed = (step M s a).delivered := by
  cases a <;> simp only [step] <;> (repeat' split) <;> simp [h]

/-- Along any schedule the freed list equals the delivered list. -/
theorem foldl_freed (M : Nat) :
    ∀ (acts : List Act) (s : PipeState), s.freed = s.delivered →
      (acts.foldl (step M) s).freed = (acts.foldl (step M) s).delivered := by
  intro acts
  induction acts with
  | nil => intro s h; exact h
  | cons a as ih =>
      intro s h
      exact ih (step M s a) (step_freed M s a h)

/-- In a completed state with at least one worker, the reassembler has
delivered exactly the `M` submitted frames in order. -/
theorem completed_state (W M : Nat) (s : PipeState) (inv : PipeInv W M s)
    (hW : 1 ≤ W) (hc : s.completed = true) :
    s.nextIdx = M ∧ s.delivered = List.range M ∧ s.abortOut = true ∧
    ∀ w ∈ s.workers, w.outQ = [] := by
  obtain ⟨hao, hqs⟩ := inv.hcomp hc
  have hx := inv.hout hao
  have hne : s.workers ≠ [] := by
    intro hnil
    have hlen := inv.hW
    rw [hnil] at hlen
    simp at hlen
    omega
  obtain ⟨w0, hw0⟩ := List.exists_mem_of_ne_nil _ hne
  have hex0 := inv.hex w0 hw0 (hx w0 hw0)
  have hsubM := inv.habort hex0.1
  have hencnil := hex0.2.1
  have hallnil : allItems s = [] := by
    rw [allItems, List.flatMap_eq_nil_iff]
    intro w hwmem
    rw [wItems, (inv.hex w hwmem (hx w hwmem)).2.2, hqs w hwmem]
    rfl
  have hpop : popped s = M := by
    rw [popped, hencnil, hsubM]
    simp
  have hnxM : s.nextIdx = M := by
    have hle := inv.hnext
    rw [hpop] at hle
    by_contra hne2
    have hlt : s.nextIdx < M := by omega
    have hcnt := inv.hitems s.nextIdx
    rw [hallnil, hpop] at hcnt
    simp only [List.count_nil] at hcnt
    rw [if_pos (And.intro (Nat.le_refl _) hlt)] at hcnt
    exact absurd hcnt (by omega)
  exact ⟨hnxM, by rw [inv.hdel, hnxM], hao, hqs⟩

/-- Once the output abort is observable, every worker has exited and every
submitted frame is either already delivered or sitting in some worker's
output queue. -/
theorem abortOut_state (W M : Nat) (s : PipeState) (inv : PipeInv W M s)
    (hW : 1 ≤ W) (hc : s.abortOut = true) :
    (∀ w ∈ s.workers, w.exited = true) ∧ s.encQ = [] ∧ s.submitted = M ∧
    ∀ i, i < M → i ∈ s.delivered ∨ ∃ w ∈ s.workers, i ∈ w.outQ := by
  have hx := inv.hout hc
  have hne : s.workers ≠ [] := by
    intro hnil
    have hlen := inv.hW
    rw [hnil] at hlen
    simp at hlen
    omega
  obtain ⟨w0, hw0⟩ := List.exists_mem_of_ne_nil _ hne
  have hex0 := inv.hex w0 hw0 (hx w0 hw0)
  have hsubM := inv.habort hex0.1
  have hencnil := hex0.2.1
  have hpop : popped s = M := by
    rw [popped, hencnil, hsubM]
    simp
  refine ⟨hx, hencnil, hsubM, ?_⟩
  intro i hi
  by_cases hlt : i < s.nextIdx
  · left
    rw [inv.hdel]
    exact List.mem_range.mpr hlt
  · right
    have hcnt := inv.hitems i
    rw [hpop] at hcnt
    have hone : (allItems s).count i = 1 := by
      rw [hcnt, if_pos (And.intro (by omega) hi)]
    have hmem : i ∈ allItems s := List.count_pos_iff.mp (by omega)
    rw [allItems, List.mem_flatMap] at hmem
    obtain ⟨w, hwmem, hwit⟩ := hmem
    refine ⟨w, hwmem, ?_⟩
    rw [wItems, (inv.hex w hwmem (hx w hwmem)).2.2] at hwit
    simpa using hwit

/-- C1: for every session of `M` submitted frames and `W ≥ 1` workers, and
every interleaving of the worker, producer and reassembler steps (arbitrary
relative completion timing), the sequence of items the reassembler has
delivered to the sink is always exactly the submission-order prefix
`0..nextIdx-1` — strictly increasing, no gaps, no duplicates — and in any
completed run it is exactly `0..M-1`. -/
theorem C1_order_preservation (W M : Nat) (acts : List Act) (hW : 1 ≤ W) :
    (run W M acts).delivered = List.range (run W M acts).nextIdx ∧
    ((run W M acts).completed = true → (run W M acts).delivered = List.range M) := by
  have inv := PipeInv_run W M acts
  exact ⟨inv.hdel, fun hc => (completed_state W M _ inv hW hc).2.1⟩

/-- Witness for C1: a concrete completed schedule with 4 workers and 2
frames, in which worker 1 finishes its frame while worker 0's is pending,
delivers exactly `[0, 1]`. -/
theorem C1_order_preservation_witness :
    (1 ≤ 4 ∧ (run 4 2 [.submit, .submit, .abortEncode, .popFrame 0, .popFrame 1,
      .pushFrame 1, .pushFrame 0, .exitWorker 0, .exitWorker 1, .exitWorker 2,
      .exitWorker 3, .abortOutput, .deliver 0, .deliver 1, .complete]).completed = true) ∧
    (run 4 2 [.submit, .submit, .abortEncode, .popFrame 0, .popFrame 1,
      .pushFrame 1, .pushFrame 0, .exitWorker 0, .exitWorker 1, .exitWorker 2,
      .exitWorker 3, .abortOutput, .deliver 0, .deliver 1, .complete]).delivered
      = List.range 2 :=
  ⟨⟨by decide, by decide⟩,
   (C1_order_preservation 4 2 [.submit, .submit, .abortEncode, .popFrame 0, .popFrame 1,
      .pushFrame 1, .pushFrame 0, .exitWorker 0, .exitWorker 1, .exitWorker 2,
      .exitWorker 3, .abortOutput, .deliver 0, .deliver 1, .complete] (by decide)).2 (by decide)⟩

/-- C3: in the scenario where `M` frames are submitted and then the
input-side abort is signaled (`abortEncode` can fire only after all `M`
submissions, and workers exit only once the input queue is drained),
whenever the reassembler reports completion it has delivered exactly `M`
items — every submitted index is among them — and completion happened only
with the output abort flag set and every worker output queue empty at the
same check, so no submitted item is dropped by shutdown timing. -/
theorem C3_shutdown_completeness (W M : Nat) (acts : List Act) (hW : 1 ≤ W)
    (hc : (run W M acts).completed = true) :
    (run W M acts).delivered.length = M ∧
    (∀ i, i < M → i ∈ (run W M acts).delivered) ∧
    (run W M acts).abortOut = true ∧
    ∀ w ∈ (run W M acts).workers, w.outQ = [] := by
  have inv := PipeInv_run W M acts
  obtain ⟨hnx, hdel, hao, hqs⟩ := completed_state W M _ inv hW hc
  refine ⟨by rw [hdel, List.length_range], ?_, hao, hqs⟩
  intro i hi
  rw [hdel]
  exact List.mem_range.mpr hi

/-- Witness for C3: a concrete single-worker schedule submitting one frame
and then aborting delivers exactly that one frame before completing. -/
theorem C3_shutdown_completeness_witness :
    (1 ≤ 1 ∧ (run 1 1 [.submit, .abortEncode, .popFrame 0, .pushFrame 0, .exitWorker 0,
      .abortOutput, .deliver 0, .complete]).completed = true) ∧
    (run 1 1 [.submit, .abortEncode, .popFrame 0, .pushFrame 0, .exitWorker 0,
      .abortOutput, .deliver 0, .complete]).delivered.length = 1 :=
  ⟨⟨by decide, by decide⟩,
   (C3_shutdown_completeness 1 1 [.submit, .abortEncode, .popFrame 0, .pushFrame 0,
      .exitWorker 0, .abortOutput, .deliver 0, .complete] (by decide) (by decide)).1⟩

/-- C6 counterexample: the claim says the pipeline does not free a buffer it
has delivered to the sink — the external sink would be responsible for
releasing it.  But `outputThread` calls `free(item.mem)` immediately after
`output_ready_callback_` (arducam_encoder.cpp lines 342-343): in this
concrete completed two-frame run the reassembler itself has freed both
buffers it delivered, so the set of pipeline-freed delivered buffers is not
empty as the claim requires. -/
theorem C6_pipeline_frees_delivered_buffer :
    (run 1 2 [.submit, .submit, .abortEncode, .popFrame 0, .pushFrame 0, .popFrame 0,
      .pushFrame 0, .exitWorker 0, .abortOutput, .deliver 0, .deliver 0,
      .complete]).delivered = [0, 1] ∧
    (run 1 2 [.submit, .submit, .abortEncode, .popFrame 0, .pushFrame 0, .popFrame 0,
      .pushFrame 0, .exitWorker 0, .abortOutput, .deliver 0, .deliver 0,
      .complete]).freed = [0, 1] ∧
    (run 1 2 [.submit, .submit, .abortEncode, .popFrame 0, .pushFrame 0, .popFrame 0,
      .pushFrame 0, .exitWorker 0, .abortOutput, .deliver 0, .deliver 0,
      .complete]).freed ≠ [] := by
  refine ⟨by decide, by decide, by decide⟩

/-- C6 amended: each encoded buffer passes from the worker to the
reassembler, which hands it to the external sink callback and then
immediately frees it itself — in every reachable state the buffers the
reassembler has freed are exactly the buffers it has delivered, so the sink
must not retain a buffer past the callback and is not responsible for
releasing it. -/
theorem C6_amended_reassembler_frees_delivered (W M : Nat) (acts : List Act) :
    (run W M acts).freed = (run W M acts).delivered :=
  foldl_freed M acts (initState W) rfl

/-- C10: teardown sequencing — the destructor sets the input abort, joins
every worker, and only then sets the output abort, so `abortOutput` can
fire only once every worker has exited.  Hence whenever the output abort
flag is observable, every worker has exited, the input queue is fully
drained, all `M` frames were submitted, and every frame not yet delivered
already sits in some worker's output queue (no worker still holds one in
its hand). -/
theorem C10_output_abort_after_worker_exit (W M : Nat) (acts : List Act) (hW : 1 ≤ W)
    (hc : (run W M acts).abortOut = true) :
    (∀ w ∈ (run W M acts).workers, w.exited = true) ∧
    (run W M acts).encQ = [] ∧
    (run W M acts).submitted = M ∧
    ∀ i, i < M → i ∈ (run W M acts).delivered ∨
      ∃ w ∈ (run W M acts).workers, i ∈ w.outQ :=
  abortOut_state W M _ (PipeInv_run W M acts) hW hc

/-- Witness for C10: a concrete two-worker schedule stopped right after the
destructor set the output abort — before any delivery — in which every
worker has indeed exited. -/
theorem C10_output_abort_after_worker_exit_witness :
    (1 ≤ 2 ∧ (run 2 1 [.submit, .abortEncode, .popFrame 0, .pushFrame 0, .exitWorker 0,
      .exitWorker 1, .abortOutput]).abortOut = true) ∧
    ∀ w ∈ (run 2 1 [.submit, .abortEncode, .popFrame 0, .pushFrame 0, .exitWorker 0,
      .exitWorker 1, .abortOutput]).workers, w.exited = true :=
  ⟨⟨by decide, by decide⟩,
   (C10_output_abort_after_worker_exit 2 1 [.submit, .abortEncode, .popFrame 0,
      .pushFrame 0, .exitWorker 0, .exitWorker 1, .abortOutput] (by decide) (by decide)).1⟩
